import Mathlib

/-!
# Verification of the flexeval scoring engine

A shallow embedding of the scoring core of the `flexeval` repository:

* `flexeval/core/metric/llm_score.py` — free-text judge scoring
  (`parse_score_from_evaluator_output`, `summarize_evaluator_scores_with_category`,
  `LLMScore.evaluate`);
* `flexeval/core/metric/llm_geval_score.py` — weighted-expectation scoring
  (`calculate_weighted_average`, `summarize_evaluator_geval_scores`,
  `LLMGEvalScore.__init__`, `ChatLLMGEvalScore.__init__`);
* `flexeval/core/evaluate_reward_model.py` — pairwise reward judging
  (`evaluate_reward_model`).

Modelling conventions:

* Python `float` values (log-probabilities, probabilities, means) are modelled
  as exact rationals `ℚ`; `math.exp` is a transcendental map on floats, so it
  is abstracted as an explicit function parameter `E : ℚ → ℚ` (theorems that
  need it assume `E` is everywhere positive, which `exp` is).
* Python `dict`s are association lists in insertion order with distinct keys;
  `defaultdict(list)` grouping is an ordered update-or-append fold.
* Fallible Python code (raising `ValueError`, `KeyError`, `ZeroDivisionError`,
  `NameError`) is embedded in `Except String`.
* `re.findall(r"(\d+)", s)` is the list of maximal runs of decimal-digit
  characters of `s` scanned left to right (`\d` restricted to ASCII digits,
  the only characters the program feeds it); `re.match(r"(\d)+", s)` succeeds
  exactly when `s` starts with a digit.
-/

namespace Flexeval

/-! ## Definitions -/

/-- The numeric value of a list of decimal digit characters (most significant
first), as produced by Python `int` on a digit string. -/
def digitsToNat (cs : List Char) : ℕ :=
  cs.foldl (fun a c => 10 * a + (c.toNat - 48)) 0

/-- A non-empty string consisting solely of decimal digits. -/
def isDigitString (s : String) : Bool :=
  !s.data.isEmpty && s.data.all Char.isDigit

/-- `re.match(r"(\d)+", token)` succeeds iff the token starts with a digit. -/
def hasLeadingDigit (s : String) : Bool :=
  match s.data with
  | [] => false
  | c :: _ => c.isDigit

/-- Leading and trailing whitespace stripping, as Python `int()` performs on
its string argument. -/
def stripSpaces (cs : List Char) : List Char :=
  ((cs.dropWhile (fun c => c.isWhitespace)).reverse.dropWhile
      (fun c => c.isWhitespace)).reverse

/-- Model of Python `int(token)` on the strings this program produces: strip
whitespace, allow an optional sign, and require the remainder to be a
non-empty run of decimal digits; anything else raises `ValueError`, which the
`none` result signals. -/
def pyInt (s : String) : Option ℤ :=
  if isDigitString s then some (digitsToNat s.data : ℤ)
  else
    match stripSpaces s.data with
    | [] => none
    | c :: rest =>
      if c = '-' then
        if !rest.isEmpty && rest.all Char.isDigit then
          some (-(digitsToNat rest : ℤ))
        else none
      else if c = '+' then
        if !rest.isEmpty && rest.all Char.isDigit then
          some (digitsToNat rest : ℤ)
        else none
      else if (c :: rest).all Char.isDigit then some (digitsToNat (c :: rest) : ℤ)
      else none

/-- `re.findall(r"(\d+)", s)` on the character list of `s`: the maximal runs
of decimal digits, scanned left to right. At a digit the regex engine matches
`\d+` greedily and resumes after the run; the structural recursion below
merges each digit into the run it heads. -/
def digitRuns : List Char → List (List Char)
  | [] => []
  | c :: cs =>
    if c.isDigit then
      match cs.head?, digitRuns cs with
      | some d, r :: rs => if d.isDigit then (c :: r) :: rs else [c] :: r :: rs
      | _, _ => [[c]]
    else digitRuns cs

/-- Spec-side view of the same notion (§4.3 "the last run of decimal digits"):
split the character list at every non-digit character. The runs of digits are
the non-empty chunks. -/
def splitAtNonDigits : List Char → List (List Char)
  | [] => [[]]
  | c :: cs =>
    if c.isDigit then
      match splitAtNonDigits cs with
      | h :: t => (c :: h) :: t
      | [] => [[c]]
    else [] :: splitAtNonDigits cs

/-- The value of the last run of decimal digits of `s`, following the spec's
words: split at non-digits, keep the non-empty runs, take the last. -/
def lastDigitRunScore (s : String) : Option ℤ :=
  (((splitAtNonDigits s.data).filter (fun r => !r.isEmpty)).getLast?).map
    (fun run => (digitsToNat run : ℤ))

/-- Embedding of `parse_score_from_evaluator_output`
(`llm_score.py`, lines 16-28): `re.findall(r"(\d+)", evaluator_output)`,
take `matched[-1]`, convert with `int`, then discard the value when a valid
score range is configured and the value falls outside it. -/
def parse_score_from_evaluator_output (evaluator_output : String)
    (valid_score_range : Option (ℤ × ℤ)) : Option ℤ :=
  match (digitRuns evaluator_output.data).getLast? with
  | none => none
  | some run =>
    let parsed_score : ℤ := (digitsToNat run : ℤ)
    match valid_score_range with
    | none => some parsed_score
    | some (lo, hi) =>
      if lo ≤ parsed_score ∧ parsed_score ≤ hi then some parsed_score else none

/-! ## `calculate_weighted_average` (`llm_geval_score.py`, lines 18-48) -/

/-- The range test of `llm_geval_score.py` line 40:
`valid_score_range and not valid_score_range[0] <= parsed_score <= valid_score_range[1]`
(a `None` range accepts everything). -/
def inRangeB (valid_score_range : Option (ℤ × ℤ)) (k : ℤ) : Bool :=
  match valid_score_range with
  | none => true
  | some (lo, hi) => decide (lo ≤ k) && decide (k ≤ hi)

/-- `score_prob_dict[parsed_score] = exp(logprob)` on an insertion-ordered
dict: overwrite in place when the integer key is already present, else append. -/
def updateOrAppend (d : List (ℤ × ℚ)) (k : ℤ) (v : ℚ) : List (ℤ × ℚ) :=
  match d with
  | [] => [(k, v)]
  | (k₀, v₀) :: rest =>
    if k₀ = k then (k, v) :: rest else (k₀, v₀) :: updateOrAppend rest k v

/-- The loop of `calculate_weighted_average` (lines 31-43): skip `None`
logprobs, skip tokens failing `re.match(r"(\d)+", token)`, convert the whole
token with `int(token)` — which raises `ValueError` when the token has a
digit prefix but is not an integer literal — skip out-of-range scores, and
store `exp(logprob)` under the parsed integer key. `E` abstracts `math.exp`. -/
def scoreProbLoop (E : ℚ → ℚ) (valid_score_range : Option (ℤ × ℤ)) :
    List (String × Option ℚ) → List (ℤ × ℚ) → Except String (List (ℤ × ℚ))
  | [], acc => .ok acc
  | (token, logprob) :: rest, acc =>
    match logprob with
    | none => scoreProbLoop E valid_score_range rest acc
    | some lp =>
      if hasLeadingDigit token then
        match pyInt token with
        | none => .error "ValueError: invalid literal for int with base 10"
        | some parsed_score =>
          if inRangeB valid_score_range parsed_score then
            scoreProbLoop E valid_score_range rest
              (updateOrAppend acc parsed_score (E lp))
          else scoreProbLoop E valid_score_range rest acc
      else scoreProbLoop E valid_score_range rest acc

/-- `numpy.average(keys, weights=values)`: the weighted mean
`Σ k·w / Σ w` of an insertion-ordered score-to-probability dict. -/
def weightedAverage (d : List (ℤ × ℚ)) : ℚ :=
  (d.map (fun q => (q.1 : ℚ) * q.2)).sum / (d.map (fun q => q.2)).sum

/-- Embedding of `calculate_weighted_average` (lines 18-48): build the
score-to-probability dict, return `(None, {})` when it is empty, else the
weighted mean together with the dict. `E` abstracts `math.exp`. -/
def calculate_weighted_average (E : ℚ → ℚ)
    (evaluator_logprobs : List (String × Option ℚ))
    (valid_score_range : Option (ℤ × ℤ)) :
    Except String (Option ℚ × List (ℤ × ℚ)) :=
  (scoreProbLoop E valid_score_range evaluator_logprobs []).map
    (fun d => if d.length = 0 then (none, d) else (some (weightedAverage d), d))

/-- A label survives the filtering (spec §4.4): its log-probability is
present, it parses to an integer (leading digit and full integer literal),
and the parsed integer lies in the configured range. -/
def survives (valid_score_range : Option (ℤ × ℤ)) (p : String × Option ℚ) : Bool :=
  p.2.isSome && hasLeadingDigit p.1 &&
    (match pyInt p.1 with
     | none => false
     | some k => inRangeB valid_score_range k)

/-- The parsed integer value of a label (0 as a junk default for labels that
do not parse; surviving labels always parse). -/
def parsedKey (p : String × Option ℚ) : ℤ :=
  (pyInt p.1).getD 0

/-- The probability weight of a label: `exp` of its log-probability. -/
def weightOf (E : ℚ → ℚ) (p : String × Option ℚ) : ℚ :=
  E (p.2.getD 0)

/-- The score the spec's words promise (§4.4): drop null-logprob,
unparseable and out-of-range labels; absent if none survive; else the
probability-weighted mean of the surviving integer labels,
`Σ label·e^logprob / Σ e^logprob` — summed over the surviving labels
themselves. -/
def claimedScore (E : ℚ → ℚ) (evaluator_logprobs : List (String × Option ℚ))
    (valid_score_range : Option (ℤ × ℤ)) : Option ℚ :=
  let surv := evaluator_logprobs.filter (fun p => survives valid_score_range p)
  if surv.isEmpty then none
  else
    some ((surv.map (fun p => (parsedKey p : ℚ) * weightOf E p)).sum /
      (surv.map (fun p => weightOf E p)).sum)

/-! ## Aggregation (`llm_score.py` lines 31-55, `llm_geval_score.py` lines 51-80)

Summaries are `dict[str, float]`, modelled as insertion-ordered association
lists `List (String × ℚ)`; task inputs are `dict[str, str]`, modelled as
`List (String × String)` with `List.lookup` for `in` and `[...]` access.
`category_key` is `Option String`: the callers pass `self.category_key`,
which defaults to `None`, and `None in task_inputs` is simply false. -/

/-- `defaultdict(list)`: append `v` to the list under `k`, creating the group
at the end on first use, preserving insertion order. -/
def addToGroup (groups : List (String × List ℚ)) (k : String) (v : ℚ) :
    List (String × List ℚ) :=
  match groups with
  | [] => [(k, [v])]
  | (k₀, vs) :: rest =>
    if k₀ = k then (k₀, vs ++ [v]) :: rest else (k₀, vs) :: addToGroup rest k v

/-- The loop of `summarize_evaluator_scores_with_category`
(`llm_score.py` lines 38-43): over `zip(evaluator_score_list,
task_inputs_list)`, skip absent scores, collect every present score, and —
when `category_key in task_inputs` — group the score under
`task_inputs["category"]`: the membership test uses the configured key but
the indexing uses the literal string `"category"`, raising `KeyError` when
that field is missing. -/
def collectScoresLoop (category_key : Option String) :
    List (Option ℚ × List (String × String)) → List ℚ →
      List (String × List ℚ) → Except String (List ℚ × List (String × List ℚ))
  | [], all_scores, groups => .ok (all_scores, groups)
  | (none, _) :: rest, all_scores, groups =>
    collectScoresLoop category_key rest all_scores groups
  | (some score, task_inputs) :: rest, all_scores, groups =>
    match category_key with
    | none => collectScoresLoop category_key rest (all_scores ++ [score]) groups
    | some k =>
      if (task_inputs.lookup k).isSome then
        match task_inputs.lookup "category" with
        | some v =>
          collectScoresLoop category_key rest (all_scores ++ [score])
            (addToGroup groups v score)
        | none => .error "KeyError: category"
      else collectScoresLoop category_key rest (all_scores ++ [score]) groups

/-- Embedding of `summarize_evaluator_scores_with_category`
(`llm_score.py` lines 31-55): collect the present scores and the per-category
groups, compute each category mean, then the overall mean
`sum(all_scores) / len(all_scores)` — a `ZeroDivisionError` when every score
is absent — and assemble the summary dict. -/
def summarize_evaluator_scores_with_category
    (evaluator_score_list : List (Option ℚ))
    (task_inputs_list : List (List (String × String)))
    (category_key : Option String) : Except String (List (String × ℚ)) :=
  (collectScoresLoop category_key
      (evaluator_score_list.zip task_inputs_list) [] []).bind
    (fun r =>
      let all_scores := r.1
      let category2average_score :=
        r.2.map (fun g => (g.1, g.2.sum / (g.2.length : ℚ)))
      if all_scores.length = 0 then .error "ZeroDivisionError: division by zero"
      else
        .ok ([("llm_score", all_scores.sum / (all_scores.length : ℚ)),
              ("num_failed_score_parses",
                ((evaluator_score_list.length - all_scores.length : ℕ) : ℚ))] ++
          category2average_score.map (fun g => ("llm_score/" ++ g.1, g.2))))

/-- The grouping loop of `summarize_evaluator_geval_scores`
(`llm_geval_score.py` lines 67-72): skip when the score is absent or no
category key is configured; when `category_key in task_inputs`, group the
score under `task_inputs[category_key]` — the configured key itself. -/
def gevalGroupsLoop (category_key : Option String) :
    List (Option ℚ × List (String × String)) → List (String × List ℚ) →
      List (String × List ℚ)
  | [], groups => groups
  | (none, _) :: rest, groups => gevalGroupsLoop category_key rest groups
  | (some score, task_inputs) :: rest, groups =>
    match category_key with
    | none => gevalGroupsLoop category_key rest groups
    | some k =>
      match task_inputs.lookup k with
      | some v => gevalGroupsLoop category_key rest (addToGroup groups v score)
      | none => gevalGroupsLoop category_key rest groups

/-- Embedding of `summarize_evaluator_geval_scores`
(`llm_geval_score.py` lines 51-80): overall mean over the non-`None` scores
first — `ZeroDivisionError` when there are none — then the per-category means
over `zip(evaluator_score_list, task_inputs_list)`. -/
def summarize_evaluator_geval_scores
    (evaluator_score_list : List (Option ℚ))
    (task_inputs_list : List (List (String × String)))
    (category_key : Option String) : Except String (List (String × ℚ)) :=
  let all_valid_scores := evaluator_score_list.filterMap id
  if all_valid_scores.length = 0 then .error "ZeroDivisionError: division by zero"
  else
    let category2mean_score :=
      (gevalGroupsLoop category_key
          (evaluator_score_list.zip task_inputs_list) []).map
        (fun g => (g.1, g.2.sum / (g.2.length : ℚ)))
    .ok ([("llm_geval_score", all_valid_scores.sum / (all_valid_scores.length : ℚ)),
          ("num_failed_score_parses",
            ((evaluator_score_list.length - all_valid_scores.length : ℕ) : ℚ))] ++
      category2mean_score.map (fun g => ("llm_geval_score/" ++ g.1, g.2)))

/-! ## Batch dispatcher and the `LLMScore` pipeline (`llm_score.py` lines 112-177) -/

/-- Fuel-indexed splitter: take a slice of `batch_size` items and recurse on
the remainder. The fuel (instantiated with the list length, an upper bound on
the number of slices for a positive batch size) only makes the recursion
structural. -/
def batchIterAux {α : Type} : ℕ → List α → ℕ → List (List α)
  | 0, _, _ => []
  | _ + 1, [], _ => []
  | fuel + 1, x :: xs, batch_size =>
    (x :: xs).take batch_size :: batchIterAux fuel ((x :: xs).drop batch_size) batch_size

/-- Modelled from the spec: `batch_iter` lives in
`flexeval/core/utils/data_util.py`, which is not among the provided sources;
§4.1 specifies it as "given an ordered sequence of items and a positive batch
size, produces a lazy sequence of contiguous slices whose concatenation
reconstructs the original sequence and order exactly; the last slice may be
shorter". Defined only for positive batch sizes; a zero batch size yields no
slices here. -/
def batch_iter {α : Type} (l : List α) (batch_size : ℕ) : List (List α) :=
  if batch_size = 0 then [] else batchIterAux l.length l batch_size

/-- Embedding of the scoring part of `LLMScore.evaluate`
(`llm_score.py` lines 112-161): render one evaluator prompt per instance from
`zip(lm_outputs, task_inputs_list, references_list)`, run the judge backend
batch by batch (`batch_iter`, `batch_complete_text`), concatenate, and parse
one optional score per output. The backend is held fixed as a deterministic
per-prompt function `complete`; the prompt template is the function `embed`
of the rendering context `{lm_output, references, **task_input}`. -/
def LLMScore_scores (complete : String → String)
    (embed : String → List (String × String) → List String → String)
    (batch_size : ℕ) (valid_score_range : Option (ℤ × ℤ))
    (lm_outputs : List String) (references_list : List (List String))
    (task_inputs_list : List (List (String × String))) : List (Option ℤ) :=
  let evaluator_input_list :=
    (lm_outputs.zip (task_inputs_list.zip references_list)).map
      (fun t => embed t.1 t.2.1 t.2.2)
  let evaluator_output_list :=
    ((batch_iter evaluator_input_list batch_size).map
      (fun b => b.map complete)).flatten
  evaluator_output_list.map
    (fun o => parse_score_from_evaluator_output o valid_score_range)

/-- Embedding of `LLMScore.evaluate` (`llm_score.py` lines 112-177): the
per-instance score list, then the summary via
`summarize_evaluator_scores_with_category` (which may raise), then the
`MetricResult` pair of summary and per-instance scores. -/
def LLMScore_evaluate (complete : String → String)
    (embed : String → List (String × String) → List String → String)
    (batch_size : ℕ) (valid_score_range : Option (ℤ × ℤ))
    (category_key : Option String)
    (lm_outputs : List String) (references_list : List (List String))
    (task_inputs_list : List (List (String × String))) :
    Except String (List (String × ℚ) × List (Option ℤ)) :=
  let evaluator_score_list :=
    LLMScore_scores complete embed batch_size valid_score_range
      lm_outputs references_list task_inputs_list
  (summarize_evaluator_scores_with_category
      (evaluator_score_list.map (Option.map (fun z : ℤ => (z : ℚ))))
      task_inputs_list category_key).bind
    (fun summary => .ok (summary, evaluator_score_list))

/-! ## `evaluate_reward_model` (`evaluate_reward_model.py` lines 13-41) -/

/-- Embedding of `evaluate_reward_model`: truncate the dataset when
`max_instances` is set (`[eval_dataset[i] for i in range(min(max_instances,
len(eval_dataset)))]`), judge batch by batch collecting the per-triple
verdicts and raw outputs in order, and return
`{"accuracy": sum(chosen_is_better_list) / len(chosen_is_better_list)}` —
a `ZeroDivisionError` on an empty dataset — plus the judge outputs. The
reward model is held fixed as a deterministic per-triple function `judge`
returning the verdict and the raw judge output. -/
def evaluate_reward_model {α : Type} (judge : α → Bool × String)
    (eval_dataset : List α) (batch_size : ℕ) (max_instances : Option ℕ) :
    Except String (List (String × ℚ) × List String) :=
  let reward_bench_instances :=
    match max_instances with
    | none => eval_dataset
    | some m => eval_dataset.take m
  let batches := batch_iter reward_bench_instances batch_size
  let chosen_is_better_list :=
    (batches.map (fun b => b.map (fun t => (judge t).1))).flatten
  let judge_outputs :=
    (batches.map (fun b => b.map (fun t => (judge t).2))).flatten
  if chosen_is_better_list.length = 0 then
    .error "ZeroDivisionError: division by zero"
  else
    .ok ([("accuracy",
            ((chosen_is_better_list.countP id : ℕ) : ℚ) /
              (chosen_is_better_list.length : ℚ))],
         judge_outputs)

/-! ## Label vocabularies and constructors
(`llm_geval_score.py` lines 177-191 and 318-335) -/

/-- Python `range(a, b)` over integers: `[a, a+1, ..., b-1]`. -/
def pyRange (a b : ℤ) : List ℤ :=
  (List.range (b - a).toNat).map (fun i => a + (i : ℤ))

/-- The label vocabulary built by `LLMGEvalScore.__init__` (line 191):
`[str(score) for score in range(valid_score_range[0], valid_score_range[1] + 2)]`. -/
def LLMGEvalScore_valid_labels (valid_score_range : ℤ × ℤ) : List String :=
  (pyRange valid_score_range.1 (valid_score_range.2 + 2)).map (fun score => toString score)

/-- The label vocabulary that line 335 of `ChatLLMGEvalScore.__init__` would
build: `[str(score) for score in range(valid_score_range[0],
valid_score_range[1] + 1)]`. -/
def ChatLLMGEvalScore_valid_labels (valid_score_range : ℤ × ℤ) : List String :=
  (pyRange valid_score_range.1 (valid_score_range.2 + 1)).map (fun score => toString score)

/-- The state `ChatLLMGEvalScore.__init__` would construct. -/
structure ChatLLMGEvalScoreState (L P : Type) where
  language_model : L
  prompt_template : P
  system_message : Option String
  disable_tqdm : Bool
  valid_score_range : ℤ × ℤ
  category_key : Option String
  prob_threshold : Unit
  valid_labels : List String

/-- The local names in scope inside `ChatLLMGEvalScore.__init__` when line
333 executes: `self` and the six constructor parameters. -/
def chatInitLocalNames : List String :=
  ["self", "language_model", "prompt_template", "valid_score_range",
   "system_message", "disable_tqdm", "category_key"]

/-- The module-level names of `llm_geval_score.py` (imports and top-level
definitions) that Python name resolution would consult after the locals. -/
def gevalModuleNames : List String :=
  ["annotations", "re", "defaultdict", "exp", "tqdm", "logger", "average",
   "LanguageModel", "PromptTemplate", "Metric", "MetricResult",
   "prepare_chat_input_for_evaluator", "prepare_text_input_for_evaluator",
   "calculate_weighted_average", "summarize_evaluator_geval_scores",
   "generate_evaluation_logprobs", "LLMGEvalScore", "ChatLLMGEvalScore"]

/-- Python name resolution for a bare name inside the constructor body:
a `NameError` unless the name is a local or a module-level name. -/
def resolveName (locals : List String) (n : String) : Except String Unit :=
  if locals.contains n || gevalModuleNames.contains n then .ok ()
  else .error ("NameError: name " ++ n ++ " is not defined")

/-- Embedding of `ChatLLMGEvalScore.__init__` (lines 318-335): the attribute
assignments of lines 327-332 bind fields, then line 333 evaluates the bare
name `prob_threshold` — which is neither a parameter, a local, nor a module
name — before line 335 would build the label vocabulary. -/
def ChatLLMGEvalScore_init {L P : Type} (language_model : L) (prompt_template : P)
    (valid_score_range : ℤ × ℤ) (system_message : Option String)
    (disable_tqdm : Bool) (category_key : Option String) :
    Except String (ChatLLMGEvalScoreState L P) :=
  (resolveName chatInitLocalNames "prob_threshold").bind
    (fun pt =>
      .ok { language_model := language_model
            prompt_template := prompt_template
            system_message := system_message
            disable_tqdm := disable_tqdm
            valid_score_range := valid_score_range
            category_key := category_key
            prob_threshold := pt
            valid_labels := ChatLLMGEvalScore_valid_labels valid_score_range })

/-! ## Supporting lemmas -/

/-- A non-digit head contributes no run. -/
theorem digitRuns_cons_nondigit (c : Char) (cs : List Char) (hc : ¬c.isDigit = true) :
    digitRuns (c :: cs) = digitRuns cs := by
  simp [digitRuns, hc]

/-- Greedy-matching view of `digitRuns`: at a digit, the first run is the
maximal digit prefix and scanning resumes after it. -/
theorem digitRuns_cons_digit :
    ∀ (cs : List Char) (c : Char), c.isDigit = true →
      digitRuns (c :: cs) =
        (c :: cs.takeWhile Char.isDigit) :: digitRuns (cs.dropWhile Char.isDigit) := by
  intro cs
  induction cs with
  | nil => intro c hc; simp [digitRuns, hc]
  | cons d cs' ih =>
    intro c hc
    by_cases hd : d.isDigit = true
    · rw [show digitRuns (c :: d :: cs') =
            (if c.isDigit then
              match (d :: cs').head?, digitRuns (d :: cs') with
              | some d, r :: rs => if d.isDigit then (c :: r) :: rs else [c] :: r :: rs
              | _, _ => [[c]]
            else digitRuns (d :: cs')) from rfl]
      rw [ih d hd]
      simp [hc, hd, List.takeWhile_cons, List.dropWhile_cons]
    · rw [show digitRuns (c :: d :: cs') =
            (if c.isDigit then
              match (d :: cs').head?, digitRuns (d :: cs') with
              | some d, r :: rs => if d.isDigit then (c :: r) :: rs else [c] :: r :: rs
              | _, _ => [[c]]
            else digitRuns (d :: cs')) from rfl]
      have htake : (d :: cs').takeWhile Char.isDigit = [] := by
        simp [List.takeWhile_cons, hd]
      have hdrop : (d :: cs').dropWhile Char.isDigit = d :: cs' := by
        simp [List.dropWhile_cons, hd]
      rw [htake, hdrop]
      cases hrest : digitRuns (d :: cs') with
      | nil => simp [hc, hd, hrest]
      | cons r rs => simp [hc, hd, hrest]

/-- The splitter always produces at least one chunk, headed by the maximal
digit prefix; the remaining chunks are the split of what follows the first
non-digit character. -/
theorem splitAtNonDigits_eq (cs : List Char) :
    splitAtNonDigits cs =
      cs.takeWhile Char.isDigit ::
        (match cs.dropWhile Char.isDigit with
         | [] => []
         | _ :: rest => splitAtNonDigits rest) := by
  induction cs with
  | nil => simp [splitAtNonDigits]
  | cons c cs' ih =>
    by_cases hc : c.isDigit = true
    · rw [show splitAtNonDigits (c :: cs') =
            (if c.isDigit then
              match splitAtNonDigits cs' with
              | h :: t => (c :: h) :: t
              | [] => [[c]]
            else [] :: splitAtNonDigits cs') from rfl]
      rw [ih]
      simp [hc, List.takeWhile_cons, List.dropWhile_cons]
    · rw [show splitAtNonDigits (c :: cs') =
            (if c.isDigit then
              match splitAtNonDigits cs' with
              | h :: t => (c :: h) :: t
              | [] => [[c]]
            else [] :: splitAtNonDigits cs') from rfl]
      simp [hc, List.takeWhile_cons, List.dropWhile_cons]

/-- `dropWhile` never lengthens a list. -/
theorem dropWhile_length_le {α : Type} (p : α → Bool) (l : List α) :
    (List.dropWhile p l).length ≤ l.length := by
  induction l with
  | nil => simp [List.dropWhile]
  | cons a l' ih =>
    rw [List.dropWhile_cons]
    by_cases ha : p a = true
    · rw [if_pos ha]
      exact Nat.le_succ_of_le ih
    · rw [if_neg ha]

/-- The head of `dropWhile p` fails `p`. -/
theorem dropWhile_head_false {p : Char → Bool} (l : List Char) :
    ∀ {c : Char} {cs : List Char}, List.dropWhile p l = c :: cs → p c = false := by
  induction l with
  | nil => intro c cs h; simp [List.dropWhile] at h
  | cons a l' ih =>
    intro c cs h
    rw [List.dropWhile_cons] at h
    by_cases ha : p a = true
    · rw [if_pos ha] at h; exact ih h
    · rw [if_neg ha] at h
      cases h
      simpa using ha

/-- The left-to-right regex scan computes exactly the non-empty chunks of the
split at non-digits: `re.findall(r"(\d+)", s)` = "the runs of decimal digits
of `s`". -/
theorem digitRuns_eq_split (l : List Char) :
    digitRuns l = (splitAtNonDigits l).filter (fun r => !r.isEmpty) := by
  have key : ∀ (n : ℕ) (l : List Char), l.length ≤ n →
      digitRuns l = (splitAtNonDigits l).filter (fun r => !r.isEmpty) := by
    intro n
    induction n with
    | zero =>
      intro l hl
      have : l = [] := List.length_eq_zero.mp (Nat.le_zero.mp hl)
      subst this
      simp [digitRuns, splitAtNonDigits]
    | succ n ih =>
      intro l hl
      cases l with
      | nil => simp [digitRuns, splitAtNonDigits]
      | cons c cs =>
        by_cases hc : c.isDigit = true
        · rw [digitRuns_cons_digit cs c hc, splitAtNonDigits_eq]
          have hhead : ((c :: cs.takeWhile Char.isDigit).isEmpty) = false := by
            simp [List.isEmpty]
          rw [List.takeWhile_cons, if_pos hc, List.dropWhile_cons, if_pos hc]
          cases hdrop : cs.dropWhile Char.isDigit with
          | nil =>
            simp only [hdrop, List.filter_cons, hhead]
            simp [digitRuns]
          | cons d rest =>
            have hd : d.isDigit = false := dropWhile_head_false cs hdrop
            have hlen : rest.length ≤ n := by
              have h1 : (cs.dropWhile Char.isDigit).length ≤ cs.length :=
                dropWhile_length_le Char.isDigit cs
              rw [hdrop] at h1
              simp only [List.length_cons] at h1 hl
              omega
            rw [digitRuns_cons_nondigit d rest (by simp [hd]), ih rest hlen]
            simp only [List.filter_cons, hhead]
            simp
        · rw [digitRuns_cons_nondigit c cs hc, splitAtNonDigits_eq,
              List.takeWhile_cons, if_neg hc, List.dropWhile_cons, if_neg hc]
          have hlen : cs.length ≤ n := by
            simp only [List.length_cons] at hl
            omega
          rw [ih cs hlen]
          simp [List.filter_cons]
  exact key l.length l le_rfl

/-- A digit string starts with a digit, so `re.match(r"(\d)+", token)`
succeeds on it. -/
theorem hasLeadingDigit_of_digitString {s : String} (h : isDigitString s = true) :
    hasLeadingDigit s = true := by
  unfold isDigitString at h
  unfold hasLeadingDigit
  cases hd : s.data with
  | nil => rw [hd] at h; simp [List.isEmpty] at h
  | cons c cs =>
    rw [hd] at h
    simp only [Bool.and_eq_true, List.all_cons] at h
    exact h.2.1

/-- Python `int` on a digit string is its decimal value. -/
theorem pyInt_of_digitString {s : String} (h : isDigitString s = true) :
    pyInt s = some (digitsToNat s.data : ℤ) := by
  unfold pyInt
  rw [if_pos h]

/-- Updating a dict at a fresh key appends the binding. -/
theorem updateOrAppend_of_not_mem {d : List (ℤ × ℚ)} {k : ℤ} (v : ℚ)
    (h : k ∉ d.map Prod.fst) : updateOrAppend d k v = d ++ [(k, v)] := by
  induction d with
  | nil => rfl
  | cons q rest ih =>
    simp only [List.map_cons, List.mem_cons] at h
    push_neg at h
    rw [show updateOrAppend (q :: rest) k v =
          (if q.1 = k then (k, v) :: rest else (q.1, q.2) :: updateOrAppend rest k v)
        from rfl]
    rw [if_neg (fun hq => h.1 hq.symm), ih h.2]
    rfl

/-- Structure of the dict-building loop on inputs whose labels are digit
strings with pairwise distinct surviving values: no `ValueError` occurs,
and the final dict is the accumulator extended, in order, with one binding
per surviving label. -/
theorem scoreProbLoop_ok (E : ℚ → ℚ) (r : Option (ℤ × ℤ)) :
    ∀ (lp : List (String × Option ℚ)) (acc : List (ℤ × ℚ)),
      (∀ p ∈ lp, isDigitString p.1 = true) →
      (acc.map Prod.fst ++ (lp.filter (fun p => survives r p)).map parsedKey).Nodup →
      scoreProbLoop E r lp acc =
        .ok (acc ++ (lp.filter (fun p => survives r p)).map
          (fun p => (parsedKey p, weightOf E p))) := by
  intro lp
  induction lp with
  | nil => intro acc _ _; simp [scoreProbLoop]
  | cons q rest ih =>
    intro acc hdig hnodup
    obtain ⟨token, logprob⟩ := q
    have htok : isDigitString token = true := hdig ⟨token, logprob⟩ (by simp)
    have hrest : ∀ p ∈ rest, isDigitString p.1 = true :=
      fun p hp => hdig p (List.mem_cons_of_mem _ hp)
    have hlead : hasLeadingDigit token = true := hasLeadingDigit_of_digitString htok
    have hpy : pyInt token = some (digitsToNat token.data : ℤ) :=
      pyInt_of_digitString htok
    cases logprob with
    | none =>
      have hsurv : survives r (token, none) = false := by
        simp [survives]
      rw [show scoreProbLoop E r ((token, none) :: rest) acc =
            scoreProbLoop E r rest acc from rfl]
      rw [List.filter_cons_of_neg (by simp [hsurv])] at hnodup ⊢
      exact ih acc hrest hnodup
    | some lp0 =>
      rw [show scoreProbLoop E r ((token, some lp0) :: rest) acc =
            (if hasLeadingDigit token then
              match pyInt token with
              | none => .error "ValueError: invalid literal for int with base 10"
              | some parsed_score =>
                if inRangeB r parsed_score then
                  scoreProbLoop E r rest (updateOrAppend acc parsed_score (E lp0))
                else scoreProbLoop E r rest acc
            else scoreProbLoop E r rest acc) from rfl]
      simp only [hlead, if_true, hpy]
      by_cases hin : inRangeB r (digitsToNat token.data : ℤ) = true
      · rw [if_pos hin]
        have hsurv : survives r (token, some lp0) = true := by
          simp [survives, hlead, hpy, hin]
        rw [List.filter_cons_of_pos (by simp [hsurv])] at hnodup ⊢
        have hkey : parsedKey (token, some lp0) = (digitsToNat token.data : ℤ) := by
          simp [parsedKey, hpy]
        simp only [List.map_cons, hkey] at hnodup
        have hfresh : (digitsToNat token.data : ℤ) ∉ acc.map Prod.fst := by
          intro hmem
          rcases List.nodup_append.mp hnodup with ⟨-, -, hdisj⟩
          exact hdisj hmem (by simp)
        rw [updateOrAppend_of_not_mem (E lp0) hfresh]
        have hnodup2 : ((acc ++ [((digitsToNat token.data : ℤ), E lp0)]).map Prod.fst ++
            (rest.filter (fun p => survives r p)).map parsedKey).Nodup := by
          rw [List.map_append, List.append_assoc]
          simpa using hnodup
        rw [ih (acc ++ [((digitsToNat token.data : ℤ), E lp0)]) hrest hnodup2]
        simp [hkey, weightOf]
      · rw [if_neg hin]
        have hsurv : survives r (token, some lp0) = false := by
          simp only [survives, hlead, hpy]
          simpa using hin
        rw [List.filter_cons_of_neg (by simp [hsurv])] at hnodup ⊢
        exact ih acc hrest hnodup

/-- Membership in an updated dict comes from the old dict or is the new
binding. -/
theorem mem_updateOrAppend : ∀ {d : List (ℤ × ℚ)} {k : ℤ} {v : ℚ} {q : ℤ × ℚ},
    q ∈ updateOrAppend d k v → q ∈ d ∨ q = (k, v) := by
  intro d
  induction d with
  | nil => intro k v q hq; simp [updateOrAppend] at hq; simp [hq]
  | cons q0 rest ih =>
    intro k v q hq
    rw [show updateOrAppend (q0 :: rest) k v =
          (if q0.1 = k then (k, v) :: rest else (q0.1, q0.2) :: updateOrAppend rest k v)
        from rfl] at hq
    by_cases h0 : q0.1 = k
    · rw [if_pos h0] at hq
      rcases List.mem_cons.mp hq with h | h
      · right; exact h
      · left; exact List.mem_cons_of_mem _ h
    · rw [if_neg h0] at hq
      rcases List.mem_cons.mp hq with h | h
      · left; rw [h]; simp
      · rcases ih h with h2 | h2
        · left; exact List.mem_cons_of_mem _ h2
        · right; exact h2

/-- Every binding the loop ever stores is in the configured range. -/
theorem scoreProbLoop_mem_range (E : ℚ → ℚ) (lo hi : ℤ) :
    ∀ (lp : List (String × Option ℚ)) (acc : List (ℤ × ℚ))
      (d : List (ℤ × ℚ)),
      scoreProbLoop E (some (lo, hi)) lp acc = .ok d →
      (∀ q ∈ acc, lo ≤ q.1 ∧ q.1 ≤ hi) →
      ∀ q ∈ d, lo ≤ q.1 ∧ q.1 ≤ hi := by
  intro lp
  induction lp with
  | nil =>
    intro acc d hloop hacc
    simp only [scoreProbLoop] at hloop
    cases hloop
    exact hacc
  | cons q0 rest ih =>
    intro acc d hloop hacc
    obtain ⟨token, logprob⟩ := q0
    cases logprob with
    | none => exact ih acc d hloop hacc
    | some lp0 =>
      rw [show scoreProbLoop E (some (lo, hi)) ((token, some lp0) :: rest) acc =
            (if hasLeadingDigit token then
              match pyInt token with
              | none => .error "ValueError: invalid literal for int with base 10"
              | some parsed_score =>
                if inRangeB (some (lo, hi)) parsed_score then
                  scoreProbLoop E (some (lo, hi)) rest
                    (updateOrAppend acc parsed_score (E lp0))
                else scoreProbLoop E (some (lo, hi)) rest acc
            else scoreProbLoop E (some (lo, hi)) rest acc) from rfl] at hloop
      by_cases hlead : hasLeadingDigit token = true
      · rw [if_pos hlead] at hloop
        cases hpy : pyInt token with
        | none => rw [hpy] at hloop; cases hloop
        | some k =>
          simp only [hpy] at hloop
          by_cases hin : inRangeB (some (lo, hi)) k = true
          · rw [if_pos hin] at hloop
            have hk : lo ≤ k ∧ k ≤ hi := by
              simpa [inRangeB] using hin
            refine ih _ d hloop ?_
            intro q hq
            have hmem : q ∈ acc ∨ q = (k, E lp0) :=
              mem_updateOrAppend hq
            rcases hmem with h | h
            · exact hacc q h
            · rw [h]; exact hk
          · rw [if_neg hin] at hloop
            exact ih acc d hloop hacc
      · rw [if_neg hlead] at hloop
        exact ih acc d hloop hacc

/-- On a run where every score is absent, the collection loop touches
nothing. -/
theorem collectScoresLoop_all_none (category_key : Option String) :
    ∀ (pairs : List (Option ℚ × List (String × String)))
      (all_scores : List ℚ) (groups : List (String × List ℚ)),
      (∀ p ∈ pairs, p.1 = none) →
      collectScoresLoop category_key pairs all_scores groups =
        .ok (all_scores, groups) := by
  intro pairs
  induction pairs with
  | nil => intro all_scores groups _; rfl
  | cons p rest ih =>
    intro all_scores groups h
    obtain ⟨s, ti⟩ := p
    have hs : s = none := h (s, ti) (by simp)
    subst hs
    exact ih all_scores groups (fun p hp => h p (List.mem_cons_of_mem _ hp))

/-- With enough fuel and a positive batch size, the slices concatenate back
to the input list. -/
theorem batchIterAux_join {α : Type} (batch_size : ℕ) (hn : 1 ≤ batch_size) :
    ∀ (fuel : ℕ) (l : List α), l.length ≤ fuel →
      (batchIterAux fuel l batch_size).flatten = l := by
  intro fuel
  induction fuel with
  | zero =>
    intro l hl
    have : l = [] := List.length_eq_zero.mp (Nat.le_zero.mp hl)
    subst this
    rfl
  | succ fuel ih =>
    intro l hl
    cases l with
    | nil => rfl
    | cons x xs =>
      rw [show batchIterAux (fuel + 1) (x :: xs) batch_size =
            (x :: xs).take batch_size ::
              batchIterAux fuel ((x :: xs).drop batch_size) batch_size from rfl]
      rw [List.flatten_cons]
      have hdrop : ((x :: xs).drop batch_size).length ≤ fuel := by
        rw [List.length_drop]
        simp only [List.length_cons] at hl ⊢
        omega
      rw [ih ((x :: xs).drop batch_size) hdrop]
      exact List.take_append_drop batch_size (x :: xs)

/-- The batch dispatcher reconstructs its input (spec §4.1). -/
theorem batch_iter_join {α : Type} (l : List α) (batch_size : ℕ)
    (hn : 1 ≤ batch_size) : (batch_iter l batch_size).flatten = l := by
  unfold batch_iter
  rw [if_neg (by omega)]
  exact batchIterAux_join batch_size hn l.length l le_rfl

/-- Mapping a function inside every slice and joining is mapping it over the
input: batching a deterministic per-item backend call has no effect on the
result. -/
theorem batch_iter_map_join {α β : Type} (f : α → β) (l : List α)
    (batch_size : ℕ) (hn : 1 ≤ batch_size) :
    ((batch_iter l batch_size).map (fun b => b.map f)).flatten = l.map f := by
  have hmj : ∀ L : List (List α), (L.map (fun b => b.map f)).flatten = L.flatten.map f := by
    intro L
    induction L with
    | nil => rfl
    | cons b L ih =>
      rw [List.map_cons, List.flatten_cons, List.flatten_cons, List.map_append, ih]
  rw [hmj, batch_iter_join l batch_size hn]

/-! ## Claim theorems -/

/-- C1 (amended): for every positive-weight exponential map, every mapping
from decimal-digit-string labels to optional log-probabilities whose
surviving labels parse to pairwise distinct integers, and every optional
valid range, `calculate_weighted_average` drops null-logprob and out-of-range
labels and returns exactly the spec's score — the probability-weighted mean
`Σ label·E(logprob) / Σ E(logprob)` of the surviving labels when at least one
survives, and an absent result (not zero and not an exception) when none
survives — together with the per-score probability dict. The distinctness
hypothesis is forced by `C1_weighted_average_counterexample`: the dict is
keyed by parsed integer, so of several surviving labels with the same integer
value only the last keeps its probability. -/
theorem C1_weighted_average_amended (E : ℚ → ℚ)
    (evaluator_logprobs : List (String × Option ℚ))
    (valid_score_range : Option (ℤ × ℤ))
    (hdig : ∀ p ∈ evaluator_logprobs, isDigitString p.1 = true)
    (hnodup : ((evaluator_logprobs.filter
        (fun p => survives valid_score_range p)).map parsedKey).Nodup) :
    calculate_weighted_average E evaluator_logprobs valid_score_range =
      .ok (claimedScore E evaluator_logprobs valid_score_range,
        (evaluator_logprobs.filter (fun p => survives valid_score_range p)).map
          (fun p => (parsedKey p, weightOf E p))) := by
  have hloop := scoreProbLoop_ok E valid_score_range evaluator_logprobs []
    hdig (by simpa using hnodup)
  unfold calculate_weighted_average
  rw [hloop]
  simp only [Except.map, List.nil_append]
  unfold claimedScore
  by_cases hempty :
      (evaluator_logprobs.filter (fun p => survives valid_score_range p)).isEmpty = true
  · rw [List.isEmpty_iff] at hempty
    simp [hempty]
  · have hne : (evaluator_logprobs.filter
        (fun p => survives valid_score_range p)) ≠ [] := by
      intro hnil
      rw [hnil] at hempty
      simp at hempty
    have hlen : ((evaluator_logprobs.filter
        (fun p => survives valid_score_range p)).map
          (fun p => (parsedKey p, weightOf E p))).length ≠ 0 := by
      simpa using hne
    rw [if_neg hlen]
    simp only [List.isEmpty_iff, hne, if_false]
    unfold weightedAverage
    rw [List.map_map, List.map_map]
    rfl

/-- C1 (counterexample): on the digit-string mapping
`{"1": 0.0, "01": 0.0, "2": 0.0}` — two distinct labels parsing to the same
integer — the code overwrites the dict entry for `1` and averages over the
two dict entries, returning `3/2`, whereas the claim's formula
`Σ label·e^logprob / Σ e^logprob` over the three surviving labels gives
`4/3`. (All log-probabilities are `0`, where `exp 0 = 1`, so the constant
weight map `1` agrees with `math.exp` at every point used.) -/
theorem C1_weighted_average_counterexample :
    calculate_weighted_average (fun _ => (1 : ℚ))
        [("1", some 0), ("01", some 0), ("2", some 0)] none =
      .ok (some (3 / 2), [(1, 1), (2, 1)]) ∧
    claimedScore (fun _ => (1 : ℚ))
        [("1", some 0), ("01", some 0), ("2", some 0)] none = some (4 / 3) ∧
    (3 / 2 : ℚ) ≠ 4 / 3 := by
  refine ⟨?_, ?_, by norm_num⟩
  · with_unfolding_all rfl
  · with_unfolding_all rfl

/-- C1 (witness): on `{"1": 0.0, "2": 0.0}` with range `[1, 5]` the
amended statement applies and evaluates to the weighted mean `3/2` with
dict `{1: 1, 2: 1}`. -/
theorem C1_weighted_average_amended_witness :
    calculate_weighted_average (fun _ => (1 : ℚ)) [("1", some 0), ("2", some 0)]
        (some (1, 5)) = .ok (some (3 / 2), [(1, 1), (2, 1)]) := by
  rw [C1_weighted_average_amended (fun _ => (1 : ℚ))
    [("1", some 0), ("2", some 0)] (some (1, 5)) (by decide) (by decide)]
  with_unfolding_all rfl

/-- C2: with the judge backend held fixed as a deterministic per-prompt
function and any batch size `≥ 1`, `LLMScore.evaluate` (i) returns exactly
what it returns with batch size 1, (ii) computes the per-instance score list
as the instance-wise map of parse∘backend∘render — so the i-th score belongs
to the i-th instance — and (iii) that score list has the same length as the
input list of model outputs. -/
theorem C2_batch_invariance (complete : String → String)
    (embed : String → List (String × String) → List String → String)
    (batch_size : ℕ) (hn : 1 ≤ batch_size)
    (valid_score_range : Option (ℤ × ℤ)) (category_key : Option String)
    (lm_outputs : List String) (references_list : List (List String))
    (task_inputs_list : List (List (String × String)))
    (hr : references_list.length = lm_outputs.length)
    (ht : task_inputs_list.length = lm_outputs.length) :
    LLMScore_evaluate complete embed batch_size valid_score_range category_key
        lm_outputs references_list task_inputs_list =
      LLMScore_evaluate complete embed 1 valid_score_range category_key
        lm_outputs references_list task_inputs_list ∧
    LLMScore_scores complete embed batch_size valid_score_range
        lm_outputs references_list task_inputs_list =
      (lm_outputs.zip (task_inputs_list.zip references_list)).map
        (fun t => parse_score_from_evaluator_output (complete (embed t.1 t.2.1 t.2.2))
          valid_score_range) ∧
    (LLMScore_scores complete embed batch_size valid_score_range
        lm_outputs references_list task_inputs_list).length = lm_outputs.length := by
  have hscores : ∀ n, 1 ≤ n →
      LLMScore_scores complete embed n valid_score_range
          lm_outputs references_list task_inputs_list =
        (lm_outputs.zip (task_inputs_list.zip references_list)).map
          (fun t => parse_score_from_evaluator_output (complete (embed t.1 t.2.1 t.2.2))
            valid_score_range) := by
    intro n hn1
    unfold LLMScore_scores
    dsimp only
    rw [batch_iter_map_join complete _ n hn1, List.map_map, List.map_map]
    rfl
  refine ⟨?_, hscores batch_size hn, ?_⟩
  · unfold LLMScore_evaluate
    rw [hscores batch_size hn, hscores 1 le_rfl]
  · rw [hscores batch_size hn]
    simp [List.length_zip, hr, ht]

/-- C2 (witness): three instances, a backend that always answers `"s4"`, and
batch size 2 — the result coincides with batch size 1 and is the expected
summary with the per-instance scores `[4, 4, 4]`. -/
theorem C2_batch_invariance_witness :
    LLMScore_evaluate (fun _ => "s4") (fun o _ _ => o) 2 none none
        ["a", "b", "c"] [[], [], []] [[], [], []] =
      LLMScore_evaluate (fun _ => "s4") (fun o _ _ => o) 1 none none
        ["a", "b", "c"] [[], [], []] [[], [], []] ∧
    LLMScore_evaluate (fun _ => "s4") (fun o _ _ => o) 2 none none
        ["a", "b", "c"] [[], [], []] [[], [], []] =
      .ok ([("llm_score", 4), ("num_failed_score_parses", 0)],
           [some 4, some 4, some 4]) := by
  refine ⟨(C2_batch_invariance (fun _ => "s4") (fun o _ _ => o) 2 (by decide)
    none none ["a", "b", "c"] [[], [], []] [[], [], []] rfl rfl).1, ?_⟩
  with_unfolding_all rfl

/-- C3 (code bug): `summarize_evaluator_scores_with_category` tests
membership of the configured category key but indexes the literal field
`"category"`: with the configured key `"domain"` present and `"category"`
absent it raises `KeyError` instead of grouping by the `"domain"` value. -/
theorem C3_category_key_literal_bug :
    summarize_evaluator_scores_with_category [some 1] [[("domain", "a")]]
      (some "domain") = .error "KeyError: category" := by
  with_unfolding_all rfl

/-- C4 (amended): on an input where every per-instance score is absent, both
aggregators raise a division-by-zero error while computing the overall mean
(`sum(all_scores) / len(all_scores)` with zero collected scores), so no
summary — failure count and per-category entries included — is produced. -/
theorem C4_all_absent_divide_by_zero
    (evaluator_score_list : List (Option ℚ))
    (task_inputs_list : List (List (String × String)))
    (category_key : Option String)
    (h : ∀ s ∈ evaluator_score_list, s = none) :
    summarize_evaluator_geval_scores evaluator_score_list task_inputs_list
        category_key = .error "ZeroDivisionError: division by zero" ∧
    summarize_evaluator_scores_with_category evaluator_score_list task_inputs_list
        category_key = .error "ZeroDivisionError: division by zero" := by
  constructor
  · have hnil : evaluator_score_list.filterMap id = [] := by
      rw [List.filterMap_eq_nil_iff]
      intro a ha
      exact h a ha
    unfold summarize_evaluator_geval_scores
    rw [hnil]
    rfl
  · have hloop := collectScoresLoop_all_none category_key
      (evaluator_score_list.zip task_inputs_list) [] []
      (fun p hp => h p.1 (List.of_mem_zip hp).1)
    unfold summarize_evaluator_scores_with_category
    rw [hloop]
    rfl

/-- C4 (witness): two instances, both scores absent — both aggregators raise
the division-by-zero error. -/
theorem C4_all_absent_divide_by_zero_witness :
    summarize_evaluator_geval_scores [none, none] [[]] none =
        .error "ZeroDivisionError: division by zero" ∧
    summarize_evaluator_scores_with_category [none, none] [[]] none =
        .error "ZeroDivisionError: division by zero" :=
  C4_all_absent_divide_by_zero [none, none] [[]] none (by decide)

/-- C4 (counterexample): a run with a single absent score does not complete:
`summarize_evaluator_geval_scores` raises a division-by-zero error rather
than producing the failure count and the (empty) per-category entries with an
undefined overall mean. -/
theorem C4_all_absent_counterexample :
    summarize_evaluator_geval_scores [none] [[]] none =
      .error "ZeroDivisionError: division by zero" := by
  with_unfolding_all rfl

/-- C5: the free-text parse is exactly "the value of the last run of decimal
digits, absent when there is none, filtered — never clamped — by the
configured range": `parse_score_from_evaluator_output` equals the spec-side
`lastDigitRunScore` composed with the range filter; and the same range
exclusion governs the weighted-expectation computation: every entry of the
score-probability dict built by `calculate_weighted_average` under a
configured range `[lo, hi]` lies inside it. -/
theorem C5_parse_last_run_and_range :
    (∀ (s : String) (valid_score_range : Option (ℤ × ℤ)),
      parse_score_from_evaluator_output s valid_score_range =
        (lastDigitRunScore s).bind (fun v =>
          match valid_score_range with
          | none => some v
          | some (lo, hi) => if lo ≤ v ∧ v ≤ hi then some v else none)) ∧
    (∀ (E : ℚ → ℚ) (evaluator_logprobs : List (String × Option ℚ)) (lo hi : ℤ)
      (out : Option ℚ × List (ℤ × ℚ)),
      calculate_weighted_average E evaluator_logprobs (some (lo, hi)) = .ok out →
      ∀ q ∈ out.2, lo ≤ q.1 ∧ q.1 ≤ hi) := by
  constructor
  · intro s valid_score_range
    unfold parse_score_from_evaluator_output lastDigitRunScore
    rw [digitRuns_eq_split]
    cases hlast : ((splitAtNonDigits s.data).filter (fun r => !r.isEmpty)).getLast? with
    | none => rfl
    | some run =>
      cases valid_score_range with
      | none => rfl
      | some p => rfl
  · intro E evaluator_logprobs lo hi out hok q hq
    unfold calculate_weighted_average at hok
    cases hloop : scoreProbLoop E (some (lo, hi)) evaluator_logprobs [] with
    | error e => rw [hloop] at hok; cases hok
    | ok d =>
      rw [hloop] at hok
      have hout2 : out.2 = d := by
        simp only [Except.map] at hok
        cases hok
        by_cases hd : d.length = 0
        · simp [hd]
        · simp [hd]
      refine scoreProbLoop_mem_range E lo hi evaluator_logprobs [] d hloop
        (by intro q hq0; cases hq0) q ?_
      rw [← hout2]
      exact hq

/-- C5 (witness): `"x12 5"` with range `[1, 9]` parses to 5 — the last digit
run, not the larger 12 — and, applying the range-exclusion part to the
concrete dict `{3: 1}` produced under range `[1, 5]`, the surviving entry
lies in range. -/
theorem C5_parse_last_run_and_range_witness :
    parse_score_from_evaluator_output "x12 5" (some (1, 9)) = some 5 ∧
    ((1 : ℤ) ≤ 3 ∧ (3 : ℤ) ≤ 5) := by
  constructor
  · rw [C5_parse_last_run_and_range.1 "x12 5" (some (1, 9))]
    decide
  · exact C5_parse_last_run_and_range.2 (fun _ => (1 : ℚ)) [("3", some 0)] 1 5
      (some 3, [(3, 1)]) (by with_unfolding_all rfl) (3, 1) (by simp)

/-- C6 (amended): the free-text judge completion
`"...the score is [[4]] out of 5"` parses to 5 — the last run of decimal
digits in the completion is `"5"`, not the bracketed `"4"`. -/
theorem C6_last_digit_run_parses_to_five :
    parse_score_from_evaluator_output "...the score is [[4]] out of 5" none =
      some 5 := by
  decide

/-- C6 (counterexample): the claim's (and the spec example's) asserted value
4 is not what the code computes on that completion. -/
theorem C6_counterexample_not_four :
    parse_score_from_evaluator_output "...the score is [[4]] out of 5" none ≠
      some 4 := by
  decide

/-- C7 (code bug): for the configured inclusive range `(1, 5)` the text-mode
scorer's vocabulary `[str(s) for s in range(lo, hi + 2)]` is
`["1", ..., "6"]` — it contains the out-of-range label `"6" = hi + 1` and is
not the claimed `["1", ..., "5"]`; the chat-mode line 335 would build
`["1", ..., "5"]`, but `ChatLLMGEvalScore.__init__` never reaches it (see
`C10_chat_init_name_error`). -/
theorem C7_label_vocabulary_off_by_one :
    LLMGEvalScore_valid_labels (1, 5) = ["1", "2", "3", "4", "5", "6"] ∧
    LLMGEvalScore_valid_labels (1, 5) ≠ ["1", "2", "3", "4", "5"] ∧
    ChatLLMGEvalScore_valid_labels (1, 5) = ["1", "2", "3", "4", "5"] := by
  refine ⟨by with_unfolding_all rfl, ?_, by with_unfolding_all rfl⟩
  intro h
  have h6 : "6" ∈ LLMGEvalScore_valid_labels (1, 5) := by
    rw [show LLMGEvalScore_valid_labels (1, 5) = ["1", "2", "3", "4", "5", "6"] by
      with_unfolding_all rfl]
    simp
  rw [h] at h6
  simp at h6

/-- C8: with the reward model held fixed as a deterministic per-triple judge,
any non-empty dataset, and any batch size `≥ 1`, `evaluate_reward_model`
returns accuracy = (number of triples whose chosen response is judged
better) / (number of triples), with the raw judgments collected in input
order. -/
theorem C8_reward_accuracy {α : Type} (judge : α → Bool × String)
    (eval_dataset : List α) (batch_size : ℕ) (hn : 1 ≤ batch_size)
    (hne : eval_dataset ≠ []) :
    evaluate_reward_model judge eval_dataset batch_size none =
      .ok ([("accuracy",
              ((eval_dataset.countP (fun t => (judge t).1) : ℕ) : ℚ) /
                (eval_dataset.length : ℚ))],
           eval_dataset.map (fun t => (judge t).2)) := by
  unfold evaluate_reward_model
  dsimp only
  rw [batch_iter_map_join (fun t => (judge t).1) eval_dataset batch_size hn,
      batch_iter_map_join (fun t => (judge t).2) eval_dataset batch_size hn]
  have hlen : (eval_dataset.map (fun t => (judge t).1)).length ≠ 0 := by
    simpa using hne
  rw [if_neg hlen]
  simp [List.countP_map, Function.comp]

/-- C8 (witness): three triples judged by "index < 2", so chosen wins in
exactly 2 of 3 — the accuracy is exactly 2/3 and the raw outputs are in
input order. -/
theorem C8_reward_accuracy_witness :
    evaluate_reward_model (fun t : ℕ => (decide (t < 2), "out")) [0, 1, 2] 2 none =
      .ok ([("accuracy", (2 : ℚ) / 3)], ["out", "out", "out"]) := by
  rw [C8_reward_accuracy (fun t : ℕ => (decide (t < 2), "out")) [0, 1, 2] 2
    (by decide) (by decide)]
  with_unfolding_all rfl

/-- C9 (code bug): `calculate_weighted_average` is not total on label
mappings: the label `"3a"` passes the guard `re.match(r"(\d)+", token)` (it
has a digit prefix) but `int(token)` is applied to the whole token and raises
`ValueError` rather than the label being dropped. -/
theorem C9_leading_digit_label_value_error :
    calculate_weighted_average (fun _ => (1 : ℚ)) [("3a", some (-1))] none =
      .error "ValueError: invalid literal for int with base 10" := by
  with_unfolding_all rfl

/-- C10: for every combination of constructor arguments,
`ChatLLMGEvalScore.__init__` evaluates the bare name `prob_threshold` at line
333, which resolves neither among the locals nor among the module-level names
of `llm_geval_score.py`, so construction always raises `NameError` and the
chat-mode weighted-expectation scorer can never be instantiated. -/
theorem C10_chat_init_name_error {L P : Type} (language_model : L)
    (prompt_template : P) (valid_score_range : ℤ × ℤ)
    (system_message : Option String) (disable_tqdm : Bool)
    (category_key : Option String) :
    ChatLLMGEvalScore_init language_model prompt_template valid_score_range
        system_message disable_tqdm category_key =
      .error "NameError: name prob_threshold is not defined" := rfl

end Flexeval
